import Mathlib

/-!
Verification development for a restaurant availability and booking engine.

The system under study keeps a three-level availability mapping
(restaurant id to date to time slot to table count), generates that mapping
from demand heuristics driven by a uniform random source, and offers query,
booking and recommendation operations on top of it.

Modelling conventions, used throughout:

* JavaScript objects are modelled as association lists with unique keys
  (insertion order preserved, first binding wins on lookup); table counts are
  modelled as integers.
* String processing is modelled on the underlying character lists
  (String.data): the split, parse, lower-case and compare operations of the
  source are re-implemented structurally so that they evaluate inside the
  kernel.  JavaScript toLowerCase, split and Number agree with these models on
  the ASCII inputs the system manipulates (dates, HH:MM times, cuisine names).
* Math.random is modelled as an oracle rng : Nat -> Rat of draws in [0, 1),
  consumed left to right in the order the source evaluates them; Date is
  modelled by an absolute day counter (weekday = day mod 7, with 0 = Sunday,
  matching getDay) together with an abstract day-to-ISO-string formatter.
* The stable Array.prototype.sort of JavaScript is modelled by the stable
  List.mergeSort, with the comparator translated pointwise.
* Fallible lookups return Option; the source never throws in these code paths.
-/

/-! ## Character-level string utilities -/

/-- Lexicographic comparison of character lists by code point.  Models the
ordering that String.prototype.localeCompare induces on the fixed-width ASCII
strings (HH:MM times) compared by the source. -/
def charListLe : List Char → List Char → Bool
  | [], _ => true
  | _ :: _, [] => false
  | a :: as, b :: bs =>
    if a.toNat < b.toNat then true
    else if b.toNat < a.toNat then false
    else charListLe as bs

/-- Split a character list at every occurrence of a separator character.
Models String.prototype.split with a single-character separator, including
the empty-segment behaviour at leading, trailing and adjacent separators. -/
def splitOnChar (sep : Char) : List Char → List (List Char)
  | [] => [[]]
  | c :: cs =>
    if c = sep then [] :: splitOnChar sep cs
    else
      match splitOnChar sep cs with
      | [] => [[c]]
      | seg :: segs => (c :: seg) :: segs

/-- Decimal value of a digit character list. -/
def digitsVal (l : List Char) : Nat :=
  l.foldl (fun n c => n * 10 + (c.toNat - 48)) 0

/-- Parse a non-empty all-digit character list as a natural number.  Models
the behaviour of Number and parseInt on the digit strings the source feeds
them; returns none where JavaScript would produce NaN. -/
def parseDigits (l : List Char) : Option Nat :=
  if !l.isEmpty && l.all Char.isDigit then some (digitsVal l) else none

/-- Case-insensitive string equality.  Models the pattern
a.toLowerCase() === b.toLowerCase() of the source (ASCII case folding). -/
def lowerEq (a b : String) : Bool :=
  a.data.map Char.toLower == b.data.map Char.toLower

/-! ## Data model

The availability mapping {restaurant id -> date -> time -> count} of the
source (interface AvailabilityData) as nested association lists. -/

/-- Innermost level: time slot to available-table count. -/
abbrev TimeMap := List (String × Int)

/-- Middle level: date (YYYY-MM-DD) to its time slots. -/
abbrev DateMap := List (String × TimeMap)

/-- Full availability mapping: restaurant id to its dates. -/
abbrev AvailabilityData := List (String × DateMap)

/-- A time slot paired with its table count, as returned by the slot
enumeration helpers (interface TimeSlot of the source). -/
structure TimeSlot where
  time : String
  available_tables : Int
deriving DecidableEq

/-- Well-formedness of an availability mapping: keys are unique at every
level, as they are for the JavaScript objects the source manipulates. -/
def wfAvailability (availability : AvailabilityData) : Prop :=
  (availability.map Prod.fst).Nodup ∧
    ∀ re ∈ availability, (re.2.map Prod.fst).Nodup ∧
      ∀ de ∈ re.2, (de.2.map Prod.fst).Nodup

instance : DecidablePred wfAvailability := fun availability => by
  unfold wfAvailability; infer_instance

/-! ## Availability query layer -/

/-- Point lookup of the date level.  Models availability[restaurantId]?.[date]
in the source. -/
def dateSlotsOf (availability : AvailabilityData) (restaurantId date : String) :
    Option TimeMap :=
  (availability.lookup restaurantId).bind fun dm => dm.lookup date

/-- Point availability check.  Models checkAvailability of the source:
availability[restaurantId]?.[date]?.[time] ?? null, with none standing for
the null (not found) result. -/
def checkAvailability (availability : AvailabilityData)
    (restaurantId date time : String) : Option Int :=
  (dateSlotsOf availability restaurantId date).bind fun tm => tm.lookup time

/-- Slot enumeration.  Models getAvailableSlots of the source: all slots of
the date whose count is at least minTables, paired with their counts, sorted
by the time string (Object.entries order filtered, mapped, then stable-sorted
with a localeCompare comparator). -/
def getAvailableSlots (availability : AvailabilityData)
    (restaurantId date : String) (minTables : Int) : List TimeSlot :=
  match dateSlotsOf availability restaurantId date with
  | none => []
  | some dateSlots =>
    (((dateSlots.filter fun p => decide (minTables ≤ p.2)).map
        fun p => TimeSlot.mk p.1 p.2).mergeSort
      fun a b => charListLe a.time.data b.time.data)

/-- Minutes since midnight of an HH:MM string.  Models timeToMinutes of the
source (split on the colon, parse both parts, hours * 60 + minutes); returns
none where the JavaScript arithmetic would produce NaN. -/
def timeToMinutes (time : String) : Option Nat :=
  match splitOnChar ':' time.data with
  | [h, m] =>
    match parseDigits h, parseDigits m with
    | some hh, some mm => some (hh * 60 + mm)
    | _, _ => none
  | _ => none

/-- Absolute distance in minutes between two time strings, the quantity the
findAlternativeSlots comparator of the source orders by.  Unparseable times
are read as 0 minutes; the source would produce NaN there, a case none of the
verified properties exercise. -/
def slotDist (preferredTime time : String) : Nat :=
  (((timeToMinutes time).getD 0 : Int) -
    ((timeToMinutes preferredTime).getD 0 : Int)).natAbs

/-- Alternative-slot search.  Models findAlternativeSlots of the source:
enumerate the qualifying slots of the date, drop the preferred time, stable
sort by distance to the preferred time, truncate to maxAlternatives. -/
def findAlternativeSlots (availability : AvailabilityData)
    (restaurantId date preferredTime : String) (minTables : Int)
    (maxAlternatives : Nat) : List TimeSlot :=
  let allSlots := getAvailableSlots availability restaurantId date minTables
  let alternatives := allSlots.filter fun slot => decide (slot.time ≠ preferredTime)
  (alternatives.mergeSort fun a b =>
      decide (slotDist preferredTime a.time ≤ slotDist preferredTime b.time)).take
    maxAlternatives

/-- Per-restaurant availability record returned by the multi-restaurant
check. -/
structure RestaurantCheck where
  restaurantId : String
  available : Bool
  tables : Int
deriving DecidableEq

/-- Multi-restaurant check.  Models checkMultipleRestaurants of the source:
one record per requested id, in order, where a missing point check is read as
0 tables (the || 0 of the source) and availability means at least minTables
tables. -/
def checkMultipleRestaurants (availability : AvailabilityData)
    (restaurantIds : List String) (date time : String) (minTables : Int) :
    List RestaurantCheck :=
  restaurantIds.map fun restaurantId =>
    let tables := (checkAvailability availability restaurantId date time).getD 0
    { restaurantId := restaurantId
      available := decide (minTables ≤ tables)
      tables := tables }

/-! ## Date helpers and booking validation -/

/-- Parse a YYYY-MM-DD string into a (year, month, day) triple.  Models
parseDate of the source (new Date(s + "T00:00:00")) at calendar-day
granularity: a valid ISO date parses to its components, anything the Date
constructor rejects parses to none (an Invalid Date compares false). -/
def parseDateYMD (dateString : String) : Option (Nat × Nat × Nat) :=
  match splitOnChar '-' dateString.data with
  | [y, m, d] =>
    match parseDigits y, parseDigits m, parseDigits d with
    | some yy, some mm, some dd => some (yy, mm, dd)
    | _, _, _ => none
  | _ => none

/-- Strict calendar order on (year, month, day) triples; for valid dates this
coincides with the millisecond comparison of the two local midnights the
source performs. -/
def ymdBefore (a b : Nat × Nat × Nat) : Bool :=
  decide (a.1 < b.1) ||
    (decide (a.1 = b.1) &&
      (decide (a.2.1 < b.2.1) ||
        (decide (a.2.1 = b.2.1) && decide (a.2.2 < b.2.2))))

/-- Past-date test.  Models isDateInPast of the source: the parsed date is
strictly before the current day (time of day ignored); the current day is
passed explicitly as a (year, month, day) triple. -/
def isDateInPast (today : Nat × Nat × Nat) (dateString : String) : Bool :=
  match parseDateYMD dateString with
  | some ymd => ymdBefore ymd today
  | none => false

/-- Literal two-digits colon two-digits test.  Models the regular expression
of the source validating the time format. -/
def matchesHHMM (time : String) : Bool :=
  match time.data with
  | [d1, d2, c, d3, d4] =>
    d1.isDigit && d2.isDigit && (c == ':') && d3.isDigit && d4.isDigit
  | _ => false

/-- Result of booking validation: the validity flag and the full list of
violation messages. -/
structure ValidationResult where
  valid : Bool
  errors : List String
deriving DecidableEq

/-- Booking validation.  Models validateBooking of the source: every violated
rule contributes its message (no short-circuiting), and the request is valid
exactly when the list is empty.  The current day is passed explicitly. -/
def validateBooking (today : Nat × Nat × Nat) (date time : String)
    (partySize : Int) : ValidationResult :=
  let errors :=
    (if isDateInPast today date then ["Cannot book for a past date"] else []) ++
      (if partySize < 1 then ["Party size must be at least 1"] else []) ++
        (if partySize > 20 then
          ["Party size cannot exceed 20. Please contact restaurant directly for large groups"]
        else []) ++
          (if matchesHHMM time then [] else ["Invalid time format. Use HH:MM"])
  { valid := errors.length == 0, errors := errors }

/-! ## Applying a booking to the availability mapping -/

/-- Rewrite the binding of one key of an association list in place.  Models a
keyed assignment object[key] = f(object[key]) on a JavaScript object. -/
def modifyEntry {β : Type} (l : List (String × β)) (key : String) (f : β → β) :
    List (String × β) :=
  l.map fun p => if p.1 = key then (p.1, f p.2) else p

/-- Booking application.  Models updateAvailabilityAfterBooking of the
source: deep-clone the mapping (purity makes the clone implicit here), and if
the full restaurant/date/time key path exists, replace that single count with
max(0, count - tablesBooked); otherwise return the mapping unchanged. -/
def updateAvailabilityAfterBooking (availability : AvailabilityData)
    (restaurantId date time : String) (tablesBooked : Int) : AvailabilityData :=
  if (checkAvailability availability restaurantId date time).isSome then
    modifyEntry availability restaurantId fun dm =>
      modifyEntry dm date fun tm =>
        modifyEntry tm time fun count => max 0 (count - tablesBooked)
  else availability

/-! ## Availability generator -/

/-- The canonical time-slot list of the generator: six lunch, six early
dinner and five late dinner slots. -/
def timeSlots : List String :=
  ["11:30", "12:00", "12:30", "13:00", "13:30", "14:00",
   "17:00", "17:30", "18:00", "18:30", "19:00", "19:30",
   "20:00", "20:30", "21:00", "21:30", "22:00"]

/-- Hour of a time slot.  Models parseInt(timeSlot.split(":")[0]) of the
generator. -/
def hourOf (timeSlot : String) : Nat :=
  (parseDigits ((splitOnChar ':' timeSlot.data).headD [])).getD 0

/-- Table count of one generated slot from its two random draws, after the
skip decision: the base count by hour popularity (floor of a scaled uniform
draw), the weekend-dinner and weekday-lunch reductions floored at 0, and the
peak forced sellout when the peak draw falls under 0.2.  The peak draw is
only consulted for hours 19 and 20. -/
def slotCount (dayOfWeek hour : Nat) (qBase qPeak : ℚ) : Int :=
  let base : Int :=
    if hour = 19 ∨ hour = 20 then ⌊qBase * 3⌋
    else if hour = 18 ∨ hour = 21 then ⌊qBase * 5⌋
    else if hour < 15 then ⌊qBase * 6⌋ + 2
    else ⌊qBase * 8⌋ + 1
  let afterWeekend :=
    if (dayOfWeek = 5 ∨ dayOfWeek = 6) ∧ 17 ≤ hour then max 0 (base - 2) else base
  let afterWeekday :=
    if (1 ≤ dayOfWeek ∧ dayOfWeek ≤ 5) ∧ hour < 15 then max 0 (afterWeekend - 1)
    else afterWeekend
  if (hour = 19 ∨ hour = 20) ∧ qPeak < mkRat 1 5 then 0 else afterWeekday

/-- Generate the time map of one (restaurant, date): walk the canonical slot
list; a weekend lunch slot first consumes a skip draw and is omitted when
that draw falls under 0.3; an emitted slot consumes a base draw and, at peak
hours, a sellout draw, combined by slotCount.  The second component is the
index of the next unconsumed random draw.  Mirrors the inner forEach of
generateAvailability, consuming draws in source order; the branches are
written out so that each recursive call shows its absolute draw index. -/
def genDay (dayOfWeek : Nat) (rng : Nat → ℚ) :
    List String → Nat → List (String × Int) × Nat
  | [], ix => ([], ix)
  | timeSlot :: rest, ix =>
    if hourOf timeSlot < 15 ∧ (dayOfWeek = 0 ∨ dayOfWeek = 6) then
      if rng ix < mkRat 3 10 then genDay dayOfWeek rng rest (ix + 1)
      else
        if hourOf timeSlot = 19 ∨ hourOf timeSlot = 20 then
          ((timeSlot,
              slotCount dayOfWeek (hourOf timeSlot) (rng (ix + 1)) (rng (ix + 2))) ::
            (genDay dayOfWeek rng rest (ix + 3)).1,
            (genDay dayOfWeek rng rest (ix + 3)).2)
        else
          ((timeSlot, slotCount dayOfWeek (hourOf timeSlot) (rng (ix + 1)) 0) ::
            (genDay dayOfWeek rng rest (ix + 2)).1,
            (genDay dayOfWeek rng rest (ix + 2)).2)
    else
      if hourOf timeSlot = 19 ∨ hourOf timeSlot = 20 then
        ((timeSlot, slotCount dayOfWeek (hourOf timeSlot) (rng ix) (rng (ix + 1))) ::
          (genDay dayOfWeek rng rest (ix + 2)).1,
          (genDay dayOfWeek rng rest (ix + 2)).2)
      else
        ((timeSlot, slotCount dayOfWeek (hourOf timeSlot) (rng ix) 0) ::
          (genDay dayOfWeek rng rest (ix + 1)).1,
          (genDay dayOfWeek rng rest (ix + 1)).2)

/-- Generate the date map of one restaurant for the given number of days
starting at the given day offset.  Days are absolute day numbers (weekday =
day mod 7, 0 = Sunday); dateStr formats a day number as its YYYY-MM-DD
string, abstracting toISOString. -/
def genDays (dateStr : Nat → String) (today : Nat) (rng : Nat → ℚ) :
    Nat → Nat → Nat → DateMap × Nat
  | _, 0, ix => ([], ix)
  | dayOffset, remaining + 1, ix =>
    let day := today + dayOffset
    let slots := genDay (day % 7) rng timeSlots ix
    let tail := genDays dateStr today rng (dayOffset + 1) remaining slots.2
    ((dateStr day, slots.1) :: tail.1, tail.2)

/-- Generate the full mapping for a list of restaurant ids, threading the
random draw index across restaurants in order. -/
def genRestaurants (dateStr : Nat → String) (today : Nat) (rng : Nat → ℚ)
    (daysAhead : Nat) : List String → Nat → AvailabilityData × Nat
  | [], ix => ([], ix)
  | restaurantId :: rest, ix =>
    let dm := genDays dateStr today rng 0 daysAhead ix
    let tail := genRestaurants dateStr today rng daysAhead rest dm.2
    ((restaurantId, dm.1) :: tail.1, tail.2)

/-- Availability generation.  Models generateAvailability of the source (the
in-memory mapping it builds before serialisation): one top-level entry per
restaurant id, one date entry per day of the horizon starting today, and per
slot the staged randomised count.  Math.random is the oracle rng, today and
the date formatter abstract the Date library as described above. -/
def generateAvailability (dateStr : Nat → String) (today : Nat)
    (rng : Nat → ℚ) (restaurantIds : List String) (daysAhead : Nat) :
    AvailabilityData :=
  (genRestaurants dateStr today rng daysAhead restaurantIds 0).1

/-- The per-day outcome the generator guarantees for a weekday and a
generated slot list: slot keys are an ordered sublist of the canonical list,
only weekend lunch slots may be missing, and every count is the non-negative
result of slotCount on two draws from [0, 1). -/
def slotListOk (dayOfWeek : Nat) (entries : List (String × Int)) : Prop :=
  (entries.map Prod.fst).Sublist timeSlots ∧
  (∀ t ∈ timeSlots,
      ¬(hourOf t < 15 ∧ (dayOfWeek = 0 ∨ dayOfWeek = 6)) →
      t ∈ entries.map Prod.fst) ∧
  ∀ p ∈ entries, 0 ≤ p.2 ∧
    ∃ qb qp, (0 ≤ qb ∧ qb < 1) ∧ (0 ≤ qp ∧ qp < 1) ∧
      p.2 = slotCount dayOfWeek (hourOf p.1) qb qp

/-! ## Recommendation layer -/

/-- Opening hours of a restaurant record (opaque display strings). -/
structure Hours where
  lunch : Option String
  dinner : String
deriving DecidableEq

/-- Restaurant reference record (interface Restaurant of the source). -/
structure Restaurant where
  id : String
  name : String
  cuisine : String
  location : String
  price_range : String
  rating : ℚ
  dietary_options : List String
  hours : Hours
  phone : String
  address : String
  features : List String
  popular_dishes : List String
  average_price_per_person : String
  reservations_required : Bool
  outdoor_seating : Bool
  private_dining : Bool
  takeout_available : Bool
  delivery_available : Bool
deriving DecidableEq

/-- Preference set of getRecommendations.  A none field is an absent
preference; the source additionally treats an empty string and a zero
minimum rating as absent (JavaScript truthiness), which the model reproduces
in recommendationScore. -/
structure RecommendationPreferences where
  cuisine : Option String
  dietary_options : Option (List String)
  price_range : Option String
  min_rating : Option ℚ
deriving DecidableEq

/-- Additive preference score of one restaurant, including the truthiness
guards of the source: plus 10 for a case-insensitive cuisine match, plus 5
per matched dietary option, plus 5 for an exact price-range match, plus
rating times 2, then forced to the sentinel -1 when a (truthy) minimum
rating is given and the rating falls below it. -/
def recommendationScore (preferences : RecommendationPreferences)
    (restaurant : Restaurant) : ℚ :=
  let afterCuisine : ℚ :=
    0 + (match preferences.cuisine with
         | some c => if c ≠ "" ∧ lowerEq restaurant.cuisine c = true then 10 else 0
         | none => 0)
  let afterDietary : ℚ :=
    afterCuisine +
      (match preferences.dietary_options with
       | some opts =>
         ((opts.filter fun option =>
             restaurant.dietary_options.any fun ro => lowerEq ro option).length : ℚ) * 5
       | none => 0)
  let afterPrice : ℚ :=
    afterDietary +
      (match preferences.price_range with
       | some p => if p ≠ "" ∧ restaurant.price_range = p then 5 else 0
       | none => 0)
  let total := afterPrice + restaurant.rating * 2
  match preferences.min_rating with
  | some m => if m ≠ 0 ∧ restaurant.rating < m then -1 else total
  | none => total

/-- Recommendation pipeline.  Models getRecommendations of the source: score
every restaurant, drop scores of at most 0, stable sort descending by score,
truncate to the limit, return the restaurants. -/
def getRecommendations (restaurants : List Restaurant)
    (preferences : RecommendationPreferences) (limit : Nat) : List Restaurant :=
  let scored := restaurants.map fun restaurant =>
    (restaurant, recommendationScore preferences restaurant)
  ((((scored.filter fun item => decide (0 < item.2)).mergeSort
      fun a b => decide (b.2 ≤ a.2)).take limit).map fun item => item.1)

/-- Score written exactly as the specification reads, with no truthiness
guards: a given preference field always participates.  Compared against
recommendationScore in the refinement theorem. -/
def recommendationScoreSpec (preferences : RecommendationPreferences)
    (restaurant : Restaurant) : ℚ :=
  let base : ℚ :=
    (match preferences.cuisine with
     | some c => if lowerEq restaurant.cuisine c = true then 10 else 0
     | none => 0) +
      (match preferences.dietary_options with
       | some opts =>
         ((opts.filter fun option =>
             restaurant.dietary_options.any fun ro => lowerEq ro option).length : ℚ) * 5
       | none => 0) +
        (match preferences.price_range with
         | some p => if restaurant.price_range = p then 5 else 0
         | none => 0) +
          restaurant.rating * 2
  match preferences.min_rating with
  | some m => if restaurant.rating < m then -1 else base
  | none => base

/-- Recommendation pipeline driven by the specification-side score. -/
def getRecommendationsSpec (restaurants : List Restaurant)
    (preferences : RecommendationPreferences) (limit : Nat) : List Restaurant :=
  let scored := restaurants.map fun restaurant =>
    (restaurant, recommendationScoreSpec preferences restaurant)
  ((((scored.filter fun item => decide (0 < item.2)).mergeSort
      fun a b => decide (b.2 ≤ a.2)).take limit).map fun item => item.1)

/-! ## Concrete data used in scenario conjuncts and witnesses -/

/-- A small availability mapping with one restaurant, one date and three
slots. -/
def exAvail : AvailabilityData :=
  [("r1", [("2025-06-20", [("18:00", 2), ("19:00", 5), ("20:00", 0)])]),
   ("r2", [("2025-06-21", [("12:00", 1)])])]

/-- Availability mapping of the multi-restaurant scenario: r1 absent, r2 with
count 3 at the queried slot. -/
def scenAvail : AvailabilityData :=
  [("r2", [("2025-06-20", [("19:00", 3)])])]

/-- A constant random oracle, used to instantiate generator theorems. -/
def rng0 : Nat → ℚ := fun _ => 0

/-- A date formatter stub, used to instantiate generator theorems. -/
def dateStr0 : Nat → String := fun day => String.mk (Nat.toDigits 10 day)

/-- An Italian restaurant rated 4.2, from the recommendation scenario. -/
def italian42 : Restaurant :=
  { id := "r42", name := "Trattoria Due", cuisine := "Italian"
    location := "Downtown", price_range := "$$", rating := mkRat 21 5
    dietary_options := ["Vegetarian"], hours := { lunch := none, dinner := "17:00-22:00" }
    phone := "555-0042", address := "42 Main St", features := []
    popular_dishes := [], average_price_per_person := "$30"
    reservations_required := false, outdoor_seating := false
    private_dining := false, takeout_available := true, delivery_available := false }

/-- An Italian restaurant rated 4.7, from the recommendation scenario. -/
def italian47 : Restaurant :=
  { id := "r47", name := "Osteria Sette", cuisine := "Italian"
    location := "Uptown", price_range := "$$$", rating := mkRat 47 10
    dietary_options := ["Vegetarian", "Gluten-Free"]
    hours := { lunch := some "11:30-14:00", dinner := "17:00-22:00" }
    phone := "555-0047", address := "47 High St", features := []
    popular_dishes := [], average_price_per_person := "$55"
    reservations_required := true, outdoor_seating := true
    private_dining := true, takeout_available := false, delivery_available := false }

/-- The preference set of the recommendation scenario: Italian cuisine,
minimum rating 4.5. -/
def italianPrefs : RecommendationPreferences :=
  { cuisine := some "Italian", dietary_options := none
    price_range := none, min_rating := some (mkRat 9 2) }

/-! ## Association-list lemmas -/

theorem lookup_eq_some_iff_mem {β : Type} {l : List (String × β)}
    (nd : (l.map Prod.fst).Nodup) {k : String} {v : β} :
    l.lookup k = some v ↔ (k, v) ∈ l := by
  induction l with
  | nil => simp [List.lookup]
  | cons p rest ih =>
    obtain ⟨a, b⟩ := p
    rw [List.map_cons, List.nodup_cons] at nd
    by_cases hk : k = a
    · subst hk
      simp only [List.lookup, beq_self_eq_true, List.mem_cons]
      constructor
      · rintro h
        exact Or.inl (by cases h; rfl)
      · rintro (h | h)
        · cases h; rfl
        · exact absurd (List.mem_map_of_mem Prod.fst h) (by simpa using nd.1)
    · have hbeq : (k == a) = false := beq_false_of_ne hk
      simp only [List.lookup, hbeq, List.mem_cons]
      rw [ih nd.2]
      constructor
      · exact Or.inr
      · rintro (h | h)
        · exact absurd (congrArg Prod.fst h) hk
        · exact h

theorem lookup_cons {β : Type} (k a : String) (b : β) (rest : List (String × β)) :
    List.lookup k ((a, b) :: rest) = if k = a then some b else List.lookup k rest := by
  by_cases h : k = a
  · simp [List.lookup, h]
  · simp [List.lookup, beq_false_of_ne h, h]

theorem modifyEntry_cons {β : Type} (a : String) (b : β)
    (rest : List (String × β)) (k : String) (f : β → β) :
    modifyEntry ((a, b) :: rest) k f =
      (if a = k then (a, f b) else (a, b)) :: modifyEntry rest k f := by
  by_cases ha : a = k
  · simp [modifyEntry, ha]
  · simp [modifyEntry, ha]

theorem lookup_modifyEntry_self {β : Type} (l : List (String × β)) (k : String)
    (f : β → β) : (modifyEntry l k f).lookup k = (l.lookup k).map f := by
  induction l with
  | nil => simp [modifyEntry, List.lookup]
  | cons p rest ih =>
    obtain ⟨a, b⟩ := p
    rw [modifyEntry_cons]
    by_cases ha : a = k
    · subst ha
      rw [if_pos rfl, lookup_cons, if_pos rfl, lookup_cons, if_pos rfl]
      rfl
    · rw [if_neg ha, lookup_cons, lookup_cons]
      by_cases hk : k = a
      · exact absurd hk (Ne.symm ha)
      · rw [if_neg hk, if_neg hk]
        exact ih

theorem lookup_modifyEntry_ne {β : Type} (l : List (String × β)) (k k' : String)
    (f : β → β) (h : k' ≠ k) :
    (modifyEntry l k f).lookup k' = l.lookup k' := by
  induction l with
  | nil => simp [modifyEntry]
  | cons p rest ih =>
    obtain ⟨a, b⟩ := p
    rw [modifyEntry_cons]
    by_cases ha : a = k
    · subst ha
      rw [if_pos rfl, lookup_cons, if_neg h, lookup_cons, if_neg h]
      exact ih
    · rw [if_neg ha, lookup_cons, lookup_cons]
      by_cases hk : k' = a
      · rw [if_pos hk, if_pos hk]
      · rw [if_neg hk, if_neg hk]
        exact ih

theorem checkAvailability_update_of_some (availability : AvailabilityData)
    (restaurantId date time : String) (tablesBooked : Int) {c : Int}
    (h : checkAvailability availability restaurantId date time = some c) :
    checkAvailability
        (updateAvailabilityAfterBooking availability restaurantId date time
          tablesBooked) restaurantId date time = some (max 0 (c - tablesBooked)) := by
  rcases hr : availability.lookup restaurantId with _ | dm
  · exfalso
    unfold checkAvailability dateSlotsOf at h
    rw [hr] at h
    simp at h
  rcases hd : dm.lookup date with _ | tm
  · exfalso
    unfold checkAvailability dateSlotsOf at h
    rw [hr] at h
    simp [hd] at h
  have ht : tm.lookup time = some c := by
    unfold checkAvailability dateSlotsOf at h
    rw [hr] at h
    simpa [hd] using h
  have hsome : (checkAvailability availability restaurantId date time).isSome := by
    rw [h]
    rfl
  unfold updateAvailabilityAfterBooking
  rw [if_pos hsome]
  unfold checkAvailability dateSlotsOf
  rw [lookup_modifyEntry_self, hr]
  simp only [Option.map_some', Option.some_bind]
  rw [lookup_modifyEntry_self, hd]
  simp only [Option.map_some', Option.some_bind]
  rw [lookup_modifyEntry_self, ht]
  rfl

theorem checkAvailability_update_frame (availability : AvailabilityData)
    (restaurantId date time : String) (tablesBooked : Int) (r' d' t' : String)
    (h : ¬(r' = restaurantId ∧ d' = date ∧ t' = time)) :
    checkAvailability
        (updateAvailabilityAfterBooking availability restaurantId date time
          tablesBooked) r' d' t' = checkAvailability availability r' d' t' := by
  unfold updateAvailabilityAfterBooking
  by_cases hs : (checkAvailability availability restaurantId date time).isSome
  · rw [if_pos hs]
    unfold checkAvailability dateSlotsOf
    by_cases hr : r' = restaurantId
    · subst hr
      rw [lookup_modifyEntry_self]
      rcases hl : availability.lookup r' with _ | dm
      · rfl
      · simp only [Option.map_some', Option.some_bind]
        by_cases hdq : d' = date
        · subst hdq
          rw [lookup_modifyEntry_self]
          rcases hld : dm.lookup d' with _ | tm
          · rfl
          · simp only [Option.map_some', Option.some_bind]
            have htq : t' ≠ time := by tauto
            rw [lookup_modifyEntry_ne _ _ _ _ htq]
        · rw [lookup_modifyEntry_ne _ _ _ _ hdq]
    · rw [lookup_modifyEntry_ne _ _ _ _ hr]
  · rw [if_neg hs]

/-- C7: for every availability mapping and triple, checkAvailability returns
the stored count (including 0) exactly when the full key path exists, returns
the distinguished none result exactly when it does not, and none differs from
every count, in particular from a stored 0; the operation is a total
function, so no exception is possible. -/
theorem checkAvailability_spec (availability : AvailabilityData)
    (restaurantId date time : String) (hwf : wfAvailability availability) :
    (∀ c : Int,
        checkAvailability availability restaurantId date time = some c ↔
          ∃ dm tm, (restaurantId, dm) ∈ availability ∧ (date, tm) ∈ dm ∧
            (time, c) ∈ tm) ∧
    (checkAvailability availability restaurantId date time = none ↔
        ¬ ∃ (dm : DateMap) (tm : TimeMap) (c : Int),
          (restaurantId, dm) ∈ availability ∧ (date, tm) ∈ dm ∧
            (time, c) ∈ tm) ∧
    (∀ c : Int, (none : Option Int) ≠ some c) := by
  have key : ∀ c : Int,
      checkAvailability availability restaurantId date time = some c ↔
        ∃ dm tm, (restaurantId, dm) ∈ availability ∧ (date, tm) ∈ dm ∧
          (time, c) ∈ tm := by
    intro c
    constructor
    · intro h
      rcases hr : availability.lookup restaurantId with _ | dm
      · exfalso
        unfold checkAvailability dateSlotsOf at h
        rw [hr] at h
        simp at h
      rcases hd : dm.lookup date with _ | tm
      · exfalso
        unfold checkAvailability dateSlotsOf at h
        rw [hr] at h
        simp [hd] at h
      have ht : tm.lookup time = some c := by
        unfold checkAvailability dateSlotsOf at h
        rw [hr] at h
        simpa [hd] using h
      have hmr := (lookup_eq_some_iff_mem hwf.1).mp hr
      have hnd := hwf.2 _ hmr
      have hmd := (lookup_eq_some_iff_mem hnd.1).mp hd
      have hmt := (lookup_eq_some_iff_mem (hnd.2 _ hmd)).mp ht
      exact ⟨dm, tm, hmr, hmd, hmt⟩
    · rintro ⟨dm, tm, hmr, hmd, hmt⟩
      have hnd := hwf.2 _ hmr
      have hr := (lookup_eq_some_iff_mem hwf.1).mpr hmr
      have hd := (lookup_eq_some_iff_mem hnd.1).mpr hmd
      have ht := (lookup_eq_some_iff_mem (hnd.2 _ hmd)).mpr hmt
      unfold checkAvailability dateSlotsOf
      rw [hr]
      simp [hd, ht]
  refine ⟨key, ?_, fun c => by simp⟩
  rcases ho : checkAvailability availability restaurantId date time with _ | c
  · simp only [true_iff]
    rintro ⟨dm, tm, c, hmr, hmd, hmt⟩
    have := (key c).mpr ⟨dm, tm, hmr, hmd, hmt⟩
    rw [ho] at this
    exact Option.noConfusion this
  · constructor
    · intro hcontra
      exact Option.noConfusion hcontra
    · intro hne
      exfalso
      rcases (key c).mp ho with ⟨dm, tm, hmr, hmd, hmt⟩
      exact hne ⟨dm, tm, c, hmr, hmd, hmt⟩

theorem checkAvailability_spec_witness :
    wfAvailability exAvail ∧
      (checkAvailability exAvail "r1" "2025-06-20" "19:00" = some 5 ↔
        ∃ dm tm, ("r1", dm) ∈ exAvail ∧ ("2025-06-20", tm) ∈ dm ∧
          ("19:00", (5 : Int)) ∈ tm) :=
  ⟨by decide, (checkAvailability_spec exAvail "r1" "2025-06-20" "19:00" (by decide)).1 5⟩

/-- C1: updating an existing (restaurant, date, time) slot with count c by a
decrement sets exactly that slot to max(0, c - decrement), leaves the lookup
of every other triple unchanged, and a missing key path leaves the mapping
itself unchanged.  The operation is pure, so the input mapping of the caller
is never mutated. -/
theorem updateAvailabilityAfterBooking_spec (availability : AvailabilityData)
    (restaurantId date time : String) (tablesBooked : Int) :
    (∀ c : Int, checkAvailability availability restaurantId date time = some c →
        checkAvailability
            (updateAvailabilityAfterBooking availability restaurantId date time
              tablesBooked) restaurantId date time =
          some (max 0 (c - tablesBooked))) ∧
    (∀ r' d' t', ¬(r' = restaurantId ∧ d' = date ∧ t' = time) →
        checkAvailability
            (updateAvailabilityAfterBooking availability restaurantId date time
              tablesBooked) r' d' t' = checkAvailability availability r' d' t') ∧
    (checkAvailability availability restaurantId date time = none →
        updateAvailabilityAfterBooking availability restaurantId date time
            tablesBooked = availability) := by
  refine ⟨fun c hc => checkAvailability_update_of_some _ _ _ _ _ hc,
    fun r' d' t' h => checkAvailability_update_frame _ _ _ _ _ _ _ _ h,
    fun hn => ?_⟩
  unfold updateAvailabilityAfterBooking
  rw [if_neg]
  rw [hn]
  simp

theorem updateAvailabilityAfterBooking_spec_witness :
    checkAvailability exAvail "r1" "2025-06-20" "19:00" = some 5 ∧
      ¬("r2" = "r1" ∧ "2025-06-21" = "2025-06-20" ∧ "12:00" = "19:00") ∧
      checkAvailability exAvail "r9" "2025-06-20" "19:00" = none ∧
      checkAvailability
          (updateAvailabilityAfterBooking exAvail "r1" "2025-06-20" "19:00" 2)
          "r1" "2025-06-20" "19:00" = some 3 ∧
      checkAvailability
          (updateAvailabilityAfterBooking exAvail "r1" "2025-06-20" "19:00" 2)
          "r2" "2025-06-21" "12:00" =
        checkAvailability exAvail "r2" "2025-06-21" "12:00" ∧
      updateAvailabilityAfterBooking exAvail "r9" "2025-06-20" "19:00" 2 = exAvail := by
  refine ⟨by decide, by decide, by decide, ?_, ?_, ?_⟩
  · have h := (updateAvailabilityAfterBooking_spec exAvail "r1" "2025-06-20"
      "19:00" 2).1 5 (by decide)
    exact h.trans (by decide)
  · exact (updateAvailabilityAfterBooking_spec exAvail "r1" "2025-06-20"
      "19:00" 2).2.1 "r2" "2025-06-21" "12:00" (by decide)
  · exact (updateAvailabilityAfterBooking_spec exAvail "r9" "2025-06-20"
      "19:00" 2).2.2 (by decide)

/-- C10: the decrement argument is unconstrained; an existing slot with count
c always becomes max(0, c - k), which is non-negative for every integer k,
and a negative k raises the count to c plus the absolute value of k instead
of failing. -/
theorem updateAvailabilityAfterBooking_any_decrement
    (availability : AvailabilityData) (restaurantId date time : String)
    (tablesBooked : Int) (c : Int)
    (h : checkAvailability availability restaurantId date time = some c) :
    checkAvailability
        (updateAvailabilityAfterBooking availability restaurantId date time
          tablesBooked) restaurantId date time =
      some (max 0 (c - tablesBooked)) ∧
    0 ≤ max 0 (c - tablesBooked) ∧
    (tablesBooked < 0 → 0 ≤ c →
      max 0 (c - tablesBooked) = c + tablesBooked.natAbs) := by
  refine ⟨checkAvailability_update_of_some _ _ _ _ _ h, le_max_left _ _,
    fun hk hc => ?_⟩
  omega

theorem updateAvailabilityAfterBooking_any_decrement_witness :
    checkAvailability exAvail "r1" "2025-06-20" "19:00" = some 5 ∧
      checkAvailability
          (updateAvailabilityAfterBooking exAvail "r1" "2025-06-20" "19:00" (-3))
          "r1" "2025-06-20" "19:00" = some 8 ∧
      (-3 : Int) < 0 ∧ (0 : Int) ≤ 5 ∧
      max 0 ((5 : Int) - (-3)) = 5 + ((-3 : Int)).natAbs := by
  refine ⟨by decide, ?_, by decide, by decide, ?_⟩
  · have h := (updateAvailabilityAfterBooking_any_decrement exAvail "r1"
      "2025-06-20" "19:00" (-3) 5 (by decide)).1
    exact h.trans (by decide)
  · exact (updateAvailabilityAfterBooking_any_decrement exAvail "r1"
      "2025-06-20" "19:00" (-3) 5 (by decide)).2.2 (by decide) (by decide)

/-- C8: the multi-restaurant check returns one record per requested id in
order; each record carries the point-check count with a missing result read
as 0 tables, and the availability flag holds exactly when that count reaches
the threshold.  In the scenario, r1 (absent) is unavailable with 0 tables and
r2 (count 3) is available with 3 tables at threshold 1. -/
theorem checkMultipleRestaurants_spec :
    (∀ availability restaurantIds date time minTables,
        (checkMultipleRestaurants availability restaurantIds date time
            minTables).length = restaurantIds.length) ∧
    (∀ (availability : AvailabilityData) (restaurantIds : List String)
        (date time : String) (minTables : Int) (i : Nat) (e : RestaurantCheck),
        (checkMultipleRestaurants availability restaurantIds date time
            minTables)[i]? = some e →
          restaurantIds[i]? = some e.restaurantId ∧
          (checkAvailability availability e.restaurantId date time =
              some e.tables ∨
            (checkAvailability availability e.restaurantId date time = none ∧
              e.tables = 0)) ∧
          (e.available = true ↔ minTables ≤ e.tables)) ∧
    checkMultipleRestaurants scenAvail ["r1", "r2"] "2025-06-20" "19:00" 1 =
      [RestaurantCheck.mk "r1" false 0, RestaurantCheck.mk "r2" true 3] := by
  refine ⟨fun availability restaurantIds date time minTables => by
    simp [checkMultipleRestaurants], ?_, by decide⟩
  intro availability restaurantIds date time minTables i e h
  unfold checkMultipleRestaurants at h
  rw [List.getElem?_map] at h
  rcases hi : restaurantIds[i]? with _ | r
  · rw [hi] at h
    exact Option.noConfusion h
  · rw [hi] at h
    simp only [Option.map_some'] at h
    injection h with h
    subst h
    refine ⟨rfl, ?_, ?_⟩
    · rcases hc : checkAvailability availability r date time with _ | cnt
      · exact Or.inr ⟨rfl, by simp⟩
      · exact Or.inl (by simp)
    · simp

theorem checkMultipleRestaurants_spec_witness :
    (checkMultipleRestaurants scenAvail ["r1", "r2"] "2025-06-20" "19:00" 1)[1]? =
        some (RestaurantCheck.mk "r2" true 3) ∧
      ((["r1", "r2"] : List String)[1]? = some "r2" ∧
        (checkAvailability scenAvail "r2" "2025-06-20" "19:00" = some 3 ∨
          (checkAvailability scenAvail "r2" "2025-06-20" "19:00" = none ∧
            (3 : Int) = 0)) ∧
        (true = true ↔ (1 : Int) ≤ 3)) :=
  ⟨by decide, checkMultipleRestaurants_spec.2.1 scenAvail ["r1", "r2"]
    "2025-06-20" "19:00" 1 1 (RestaurantCheck.mk "r2" true 3) (by decide)⟩

/-- C2: booking validation collects all violated rules without
short-circuiting and is valid exactly when none is violated; the rules are a
past date (calendar-day granularity), party size below 1, party size above 20
(with the contact-the-restaurant message), and a time not matching the
two-digits colon two-digits pattern.  The concrete conjuncts pin the boundary
behaviour for a fixed current day of 2025-06-15. -/
theorem validateBooking_spec :
    (∀ today date time partySize,
        (validateBooking today date time partySize).valid = true ↔
          (isDateInPast today date = false ∧ 1 ≤ partySize ∧ partySize ≤ 20 ∧
            matchesHHMM time = true)) ∧
    (∀ today date time partySize,
        (validateBooking today date time partySize).errors.length =
          (if isDateInPast today date then 1 else 0) +
            (if partySize < 1 then 1 else 0) +
              (if 20 < partySize then 1 else 0) +
                (if matchesHHMM time then 0 else 1)) ∧
    (∀ today date time partySize,
        "Cannot book for a past date" ∈
            (validateBooking today date time partySize).errors ↔
          isDateInPast today date = true) ∧
    (∀ today date time partySize,
        "Party size must be at least 1" ∈
            (validateBooking today date time partySize).errors ↔
          partySize < 1) ∧
    (∀ today date time partySize,
        "Party size cannot exceed 20. Please contact restaurant directly for large groups" ∈
            (validateBooking today date time partySize).errors ↔
          20 < partySize) ∧
    (∀ today date time partySize,
        "Invalid time format. Use HH:MM" ∈
            (validateBooking today date time partySize).errors ↔
          matchesHHMM time = false) ∧
    (validateBooking (2025, 6, 15) "2025-06-14" "19:00" 4).valid = false ∧
    (validateBooking (2025, 6, 15) "2025-06-16" "19:00" 0).valid = false ∧
    (validateBooking (2025, 6, 15) "2025-06-16" "19:00" 21).valid = false ∧
    (validateBooking (2025, 6, 15) "2025-06-16" "19:00" 20).valid = true ∧
    (validateBooking (2025, 6, 15) "2025-06-16" "7:00" 4).valid = false ∧
    (validateBooking (2025, 6, 15) "2025-06-16" "07:00" 4).valid = true := by
  refine ⟨?_, ?_, ?_, ?_, ?_, ?_, by decide, by decide, by decide, by decide,
    by decide, by decide⟩
  all_goals
    intro today date time partySize
    cases hp : isDateInPast today date <;>
      cases ht : matchesHHMM time <;>
        by_cases h1 : partySize < 1 <;>
          by_cases h2 : partySize > 20 <;>
            simp [validateBooking, hp, ht, h1, h2] <;>
              omega

/-- C9: the time check of validateBooking is purely syntactic: with a
non-past date and a party size between 1 and 20, any time matching two
digits, colon, two digits is accepted, including the impossible 99:99 and
well-formed times outside the canonical slot set such as 23:45. -/
theorem validateBooking_time_syntactic_only :
    (∀ today date time partySize,
        isDateInPast today date = false → 1 ≤ partySize → partySize ≤ 20 →
          matchesHHMM time = true →
          (validateBooking today date time partySize).valid = true) ∧
    (validateBooking (2025, 6, 15) "2025-06-16" "99:99" 4).valid = true ∧
    (validateBooking (2025, 6, 15) "2025-06-16" "23:45" 4).valid = true := by
  refine ⟨?_, by decide, by decide⟩
  intro today date time partySize hp h1 h2 ht
  have e1 : ¬partySize < 1 := by omega
  have e2 : ¬partySize > 20 := by omega
  simp [validateBooking, hp, ht, e1, e2]

theorem validateBooking_time_syntactic_only_witness :
    isDateInPast (2025, 6, 15) "2025-06-16" = false ∧ (1 : Int) ≤ 4 ∧
      (4 : Int) ≤ 20 ∧ matchesHHMM "99:99" = true ∧
      (validateBooking (2025, 6, 15) "2025-06-16" "99:99" 4).valid = true :=
  ⟨by decide, by decide, by decide, by decide,
    validateBooking_time_syntactic_only.1 (2025, 6, 15) "2025-06-16" "99:99" 4
      (by decide) (by decide) (by decide) (by decide)⟩

/-! ## Sorting lemmas for the slot comparators -/

theorem charListLe_total : ∀ as bs, (charListLe as bs || charListLe bs as) = true := by
  intro as
  induction as with
  | nil => intro bs; simp [charListLe]
  | cons a as ih =>
    intro bs
    cases bs with
    | nil => simp [charListLe]
    | cons b bs =>
      simp only [charListLe]
      by_cases h1 : a.toNat < b.toNat
      · simp [h1]
      · by_cases h2 : b.toNat < a.toNat
        · simp [h1, h2]
        · simp [h1, h2, ih bs]

theorem charListLe_trans : ∀ as bs cs, charListLe as bs = true →
    charListLe bs cs = true → charListLe as cs = true := by
  intro as
  induction as with
  | nil => intro bs cs h1 h2; simp [charListLe]
  | cons a as ih =>
    intro bs cs h1 h2
    cases bs with
    | nil => simp [charListLe] at h1
    | cons b bs =>
      cases cs with
      | nil => simp [charListLe] at h2
      | cons c cs =>
        simp only [charListLe] at h1 h2 ⊢
        by_cases hab : a.toNat < b.toNat <;>
          by_cases hbc : b.toNat < c.toNat <;>
            by_cases hac : a.toNat < c.toNat <;>
              by_cases hba : b.toNat < a.toNat <;>
                by_cases hcb : c.toNat < b.toNat <;>
                  by_cases hca : c.toNat < a.toNat <;>
                    simp_all <;>
                      first
                        | omega
                        | exact Or.inl (by omega)
                        | exact ih bs cs h1 h2
                        | exact Or.inr (ih bs cs h1 h2)

theorem slotTimeLe_trans (a b c : TimeSlot)
    (hab : charListLe a.time.data b.time.data = true)
    (hbc : charListLe b.time.data c.time.data = true) :
    charListLe a.time.data c.time.data = true :=
  charListLe_trans _ _ _ hab hbc

theorem slotTimeLe_total (a b : TimeSlot) :
    (charListLe a.time.data b.time.data || charListLe b.time.data a.time.data) = true :=
  charListLe_total _ _

theorem distLe_trans (preferredTime : String) (a b c : TimeSlot)
    (hab : decide (slotDist preferredTime a.time ≤ slotDist preferredTime b.time) = true)
    (hbc : decide (slotDist preferredTime b.time ≤ slotDist preferredTime c.time) = true) :
    decide (slotDist preferredTime a.time ≤ slotDist preferredTime c.time) = true := by
  simp only [decide_eq_true_eq] at hab hbc ⊢
  omega

theorem distLe_total (preferredTime : String) (a b : TimeSlot) :
    (decide (slotDist preferredTime a.time ≤ slotDist preferredTime b.time) ||
      decide (slotDist preferredTime b.time ≤ slotDist preferredTime a.time)) = true := by
  simp only [Bool.or_eq_true, decide_eq_true_eq]
  omega

theorem getAvailableSlots_sorted (availability : AvailabilityData)
    (restaurantId date : String) (minTables : Int) :
    (getAvailableSlots availability restaurantId date minTables).Pairwise
      (fun a b => charListLe a.time.data b.time.data = true) := by
  unfold getAvailableSlots
  rcases dateSlotsOf availability restaurantId date with _ | ds
  · simp
  · exact List.sorted_mergeSort slotTimeLe_trans slotTimeLe_total _

theorem mem_getAvailableSlots {availability : AvailabilityData}
    {restaurantId date : String} {minTables : Int} {s : TimeSlot}
    (hs : s ∈ getAvailableSlots availability restaurantId date minTables) :
    ∃ dateSlots, dateSlotsOf availability restaurantId date = some dateSlots ∧
      (s.time, s.available_tables) ∈ dateSlots ∧ minTables ≤ s.available_tables := by
  unfold getAvailableSlots at hs
  rcases hds : dateSlotsOf availability restaurantId date with _ | ds <;>
    rw [hds] at hs
  · simp at hs
  · simp only [List.mem_mergeSort] at hs
    rcases List.mem_map.mp hs with ⟨p, hp, rfl⟩
    have h1 := List.of_mem_filter hp
    have h2 := List.mem_of_mem_filter hp
    exact ⟨ds, rfl, h2, by simpa using h1⟩

/-- Stability of mergeSort: sorting a list that is already ordered by a
relation q with a transitive total comparator le yields a list ordered by le
in which le-ties keep their q order. -/
theorem pairwise_mergeSort_stable {α : Type} {le : α → α → Bool}
    {q : α → α → Prop}
    (trans : ∀ a b c, le a b = true → le b c = true → le a c = true)
    (total : ∀ a b, (le a b || le b a) = true)
    {l : List α} (h : l.Pairwise q) :
    (l.mergeSort le).Pairwise fun a b => le a b = true ∧ (le b a = true → q a b) := by
  rw [← @List.mergeSort_enum _ le l, List.pairwise_map]
  have s := List.sorted_mergeSort (List.enumLE_trans trans)
    (List.enumLE_total total) l.enum
  have ndfst : ((l.enum.mergeSort (List.enumLE le)).map Prod.fst).Nodup := by
    have hp : (l.enum.mergeSort (List.enumLE le)).Perm l.enum :=
      List.mergeSort_perm _ _
    exact (hp.map Prod.fst).nodup_iff.mpr
      (by rw [List.enum_map_fst]; exact List.nodup_range _)
  have nd : (l.enum.mergeSort (List.enumLE le)).Pairwise fun x y => x.1 ≠ y.1 :=
    List.pairwise_map.mp ndfst
  refine (s.and nd).imp_of_mem ?_
  intro x y hx hy hxy
  obtain ⟨hle, hne⟩ := hxy
  rw [List.mem_mergeSort, List.mem_enum_iff_getElem?] at hx hy
  unfold List.enumLE at hle
  by_cases hab : le x.2 y.2 = true
  · refine ⟨hab, fun hba => ?_⟩
    rw [if_pos hab, if_pos hba] at hle
    have hij : x.1 ≤ y.1 := of_decide_eq_true hle
    have hlt : x.1 < y.1 := by
      rcases Nat.lt_or_ge x.1 y.1 with hq | hq
      · exact hq
      · exfalso
        have h21 : x.1 = y.1 := Nat.le_antisymm hij hq
        exact hne h21
    obtain ⟨hxlen, hxv⟩ := List.getElem?_eq_some.mp hx
    obtain ⟨hylen, hyv⟩ := List.getElem?_eq_some.mp hy
    have hpg := (List.pairwise_iff_getElem.mp h) x.1 y.1 hxlen hylen hlt
    rwa [hxv, hyv] at hpg
  · rw [if_neg hab] at hle
    exact absurd hle (by simp)

/-- C6: slot enumeration returns, for the given date, exactly the slots whose
count reaches the threshold, each paired with its count (a permutation of the
filtered date map), sorted ascending by the time string; an absent restaurant
or date yields the empty list rather than an error. -/
theorem getAvailableSlots_spec (availability : AvailabilityData)
    (restaurantId date : String) (minTables : Int) :
    (∀ s ∈ getAvailableSlots availability restaurantId date minTables,
        minTables ≤ s.available_tables) ∧
    (getAvailableSlots availability restaurantId date minTables).Pairwise
      (fun a b => charListLe a.time.data b.time.data = true) ∧
    (dateSlotsOf availability restaurantId date = none →
        getAvailableSlots availability restaurantId date minTables = []) ∧
    (∀ dateSlots, dateSlotsOf availability restaurantId date = some dateSlots →
        (getAvailableSlots availability restaurantId date minTables).Perm
          ((dateSlots.filter fun p => decide (minTables ≤ p.2)).map
            fun p => TimeSlot.mk p.1 p.2)) := by
  refine ⟨fun s hs => ?_, getAvailableSlots_sorted _ _ _ _, fun h => ?_, fun ds h => ?_⟩
  · obtain ⟨ds, _, _, hle⟩ := mem_getAvailableSlots hs
    exact hle
  · unfold getAvailableSlots
    rw [h]
  · unfold getAvailableSlots
    rw [h]
    exact List.mergeSort_perm _ _

theorem getAvailableSlots_spec_witness :
    dateSlotsOf exAvail "r9" "2025-06-20" = none ∧
      getAvailableSlots exAvail "r9" "2025-06-20" 1 = [] ∧
      dateSlotsOf exAvail "r1" "2025-06-20" =
        some [("18:00", (2 : Int)), ("19:00", 5), ("20:00", 0)] ∧
      (getAvailableSlots exAvail "r1" "2025-06-20" 1).Perm
        (([("18:00", (2 : Int)), ("19:00", 5), ("20:00", 0)].filter
            fun p => decide ((1 : Int) ≤ p.2)).map fun p => TimeSlot.mk p.1 p.2) ∧
      (1 : Int) ≤ 5 := by
  have hperm := (getAvailableSlots_spec exAvail "r1" "2025-06-20" 1).2.2.2
    [("18:00", (2 : Int)), ("19:00", 5), ("20:00", 0)] (by decide)
  have hmem : TimeSlot.mk "19:00" 5 ∈ getAvailableSlots exAvail "r1" "2025-06-20" 1 :=
    hperm.mem_iff.mpr (by decide)
  exact ⟨by decide,
    (getAvailableSlots_spec exAvail "r9" "2025-06-20" 1).2.2.1 (by decide),
    by decide, hperm,
    (getAvailableSlots_spec exAvail "r1" "2025-06-20" 1).1 _ hmem⟩

/-- C4: alternative-slot search returns at most maxAlternatives slots, never
the preferred time itself, only slots of that date whose count reaches the
threshold, ordered by absolute distance in minutes since midnight to the
preferred time, with distance ties keeping the earlier time first. -/
theorem findAlternativeSlots_spec (availability : AvailabilityData)
    (restaurantId date preferredTime : String) (minTables : Int)
    (maxAlternatives : Nat) :
    (findAlternativeSlots availability restaurantId date preferredTime minTables
        maxAlternatives).length ≤ maxAlternatives ∧
    (∀ s ∈ findAlternativeSlots availability restaurantId date preferredTime
        minTables maxAlternatives, s.time ≠ preferredTime) ∧
    (∀ s ∈ findAlternativeSlots availability restaurantId date preferredTime
        minTables maxAlternatives,
        ∃ dateSlots, dateSlotsOf availability restaurantId date = some dateSlots ∧
          (s.time, s.available_tables) ∈ dateSlots ∧
          minTables ≤ s.available_tables) ∧
    (findAlternativeSlots availability restaurantId date preferredTime minTables
        maxAlternatives).Pairwise fun a b =>
      slotDist preferredTime a.time ≤ slotDist preferredTime b.time ∧
        (slotDist preferredTime b.time ≤ slotDist preferredTime a.time →
          charListLe a.time.data b.time.data = true) := by
  have hmem : ∀ s ∈ findAlternativeSlots availability restaurantId date
      preferredTime minTables maxAlternatives,
      s ∈ getAvailableSlots availability restaurantId date minTables ∧
        s.time ≠ preferredTime := by
    intro s hs
    simp only [findAlternativeSlots] at hs
    have hs1 := List.take_subset _ _ hs
    rw [List.mem_mergeSort] at hs1
    have h1 := List.of_mem_filter hs1
    have h2 := List.mem_of_mem_filter hs1
    exact ⟨h2, of_decide_eq_true h1⟩
  refine ⟨?_, fun s hs => (hmem s hs).2,
    fun s hs => mem_getAvailableSlots (hmem s hs).1, ?_⟩
  · simp only [findAlternativeSlots]
    rw [List.length_take]
    exact min_le_left _ _
  · have hq : ((getAvailableSlots availability restaurantId date
        minTables).filter fun slot => decide (slot.time ≠ preferredTime)).Pairwise
        (fun a b : TimeSlot => charListLe a.time.data b.time.data = true) :=
      List.Pairwise.sublist (List.filter_sublist _)
        (getAvailableSlots_sorted _ _ _ _)
    have hstable := pairwise_mergeSort_stable (distLe_trans preferredTime)
      (distLe_total preferredTime) hq
    have htake := List.Pairwise.sublist
      (List.take_sublist maxAlternatives _) hstable
    simp only [findAlternativeSlots]
    refine htake.imp ?_
    intro a b hab
    exact ⟨of_decide_eq_true hab.1, fun hba => hab.2 (decide_eq_true hba)⟩

theorem findAlternativeSlots_spec_witness :
    TimeSlot.mk "19:00" 3 ∈
        findAlternativeSlots scenAvail "r2" "2025-06-20" "12:00" 1 3 ∧
      (findAlternativeSlots scenAvail "r2" "2025-06-20" "12:00" 1 3).length ≤ 3 ∧
      (TimeSlot.mk "19:00" (3 : Int)).time ≠ "12:00" ∧
      (∃ dateSlots, dateSlotsOf scenAvail "r2" "2025-06-20" = some dateSlots ∧
        ((TimeSlot.mk "19:00" (3 : Int)).time,
          (TimeSlot.mk "19:00" (3 : Int)).available_tables) ∈ dateSlots ∧
        (1 : Int) ≤ (TimeSlot.mk "19:00" (3 : Int)).available_tables) := by
  have heval : findAlternativeSlots scenAvail "r2" "2025-06-20" "12:00" 1 3 =
      [TimeSlot.mk "19:00" 3] := by
    simp [findAlternativeSlots, getAvailableSlots, dateSlotsOf, scenAvail,
      List.lookup]
  have hmem : TimeSlot.mk "19:00" (3 : Int) ∈
      findAlternativeSlots scenAvail "r2" "2025-06-20" "12:00" 1 3 := by
    rw [heval]
    exact List.mem_singleton_self _
  exact ⟨hmem,
    (findAlternativeSlots_spec scenAvail "r2" "2025-06-20" "12:00" 1 3).1,
    (findAlternativeSlots_spec scenAvail "r2" "2025-06-20" "12:00" 1 3).2.1 _ hmem,
    (findAlternativeSlots_spec scenAvail "r2" "2025-06-20" "12:00" 1 3).2.2.1 _ hmem⟩

/-! ## Recommendation refinement -/

theorem recommendationScore_eq_spec (preferences : RecommendationPreferences)
    (restaurant : Restaurant) (hc : preferences.cuisine ≠ some "")
    (hp : preferences.price_range ≠ some "")
    (hm : preferences.min_rating ≠ some 0) :
    recommendationScore preferences restaurant =
      recommendationScoreSpec preferences restaurant := by
  obtain ⟨cu, di, pr, mr⟩ := preferences
  simp only [ne_eq, Option.some.injEq] at hc hp hm
  rcases cu with _ | c <;> rcases pr with _ | p <;> rcases mr with _ | m <;>
    simp only [recommendationScore, recommendationScoreSpec] <;>
      simp_all [zero_add]

theorem getRecommendations_eq_spec (restaurants : List Restaurant)
    (preferences : RecommendationPreferences) (limit : Nat)
    (hc : preferences.cuisine ≠ some "") (hp : preferences.price_range ≠ some "")
    (hm : preferences.min_rating ≠ some 0) :
    getRecommendations restaurants preferences limit =
      getRecommendationsSpec restaurants preferences limit := by
  unfold getRecommendations getRecommendationsSpec
  have hmap : (restaurants.map fun r => (r, recommendationScore preferences r)) =
      restaurants.map fun r => (r, recommendationScoreSpec preferences r) :=
    List.map_congr_left fun r _ => by
      rw [recommendationScore_eq_spec _ _ hc hp hm]
  rw [hmap]

/-- C5: on preference sets whose given fields are substantive (JavaScript
truthiness: a given cuisine or price range is non-empty, a given minimum
rating is non-zero), getRecommendations computes exactly the additive score
of the specification with the minimum-rating sentinel, drops scores of at
most 0, sorts descending and truncates; on the Italian scenario only the
4.7-rated restaurant survives the 4.5 minimum. -/
theorem getRecommendations_spec :
    (∀ (restaurants : List Restaurant)
        (preferences : RecommendationPreferences) (limit : Nat),
        preferences.cuisine ≠ some "" → preferences.price_range ≠ some "" →
          preferences.min_rating ≠ some 0 →
          getRecommendations restaurants preferences limit =
            getRecommendationsSpec restaurants preferences limit) ∧
    getRecommendations [italian42, italian47] italianPrefs 5 = [italian47] := by
  constructor
  · intro restaurants preferences limit hc hp hm
    exact getRecommendations_eq_spec restaurants preferences limit hc hp hm
  · have hl : lowerEq "Italian" "Italian" = true := by decide
    have hne : ("Italian" : String) ≠ "" := by decide
    have hm0 : (mkRat 9 2 : ℚ) ≠ 0 := by decide
    have hlt : (mkRat 21 5 : ℚ) < mkRat 9 2 := by decide
    have hge : ¬((mkRat 47 10 : ℚ) < mkRat 9 2) := by decide
    have h42 : recommendationScore italianPrefs italian42 = -1 := by
      simp [recommendationScore, italianPrefs, italian42, hl, hne, hm0, hlt]
    have h47 : recommendationScore italianPrefs italian47 =
        0 + 10 + 0 + 0 + mkRat 47 10 * 2 := by
      simp [recommendationScore, italianPrefs, italian47, hl, hne, hm0, hge]
    have b42 : decide (0 < recommendationScore italianPrefs italian42) = false := by
      rw [h42]
      decide
    have b47 : decide (0 < recommendationScore italianPrefs italian47) = true := by
      rw [h47]
      rw [Rat.mkRat_eq_div]
      norm_num
    simp only [getRecommendations, List.map_cons, List.map_nil,
      List.filter_cons, List.filter_nil, b42, b47]
    simp

theorem getRecommendations_spec_witness :
    italianPrefs.cuisine ≠ some "" ∧ italianPrefs.price_range ≠ some "" ∧
      italianPrefs.min_rating ≠ some 0 ∧
      getRecommendations [italian42, italian47] italianPrefs 5 =
        getRecommendationsSpec [italian42, italian47] italianPrefs 5 :=
  ⟨by decide, by decide, by decide,
    getRecommendations_spec.1 [italian42, italian47] italianPrefs 5 (by decide)
      (by decide) (by decide)⟩

/-! ## Generator lemmas -/

theorem slotCount_nonneg (dayOfWeek hour : Nat) (qBase qPeak : ℚ)
    (hq : 0 ≤ qBase) : 0 ≤ slotCount dayOfWeek hour qBase qPeak := by
  simp only [slotCount]
  have h3 : (0 : Int) ≤ ⌊qBase * 3⌋ :=
    Int.floor_nonneg.mpr (mul_nonneg hq (by norm_num))
  have h5 : (0 : Int) ≤ ⌊qBase * 5⌋ :=
    Int.floor_nonneg.mpr (mul_nonneg hq (by norm_num))
  have h6 : (0 : Int) ≤ ⌊qBase * 6⌋ :=
    Int.floor_nonneg.mpr (mul_nonneg hq (by norm_num))
  have h8 : (0 : Int) ≤ ⌊qBase * 8⌋ :=
    Int.floor_nonneg.mpr (mul_nonneg hq (by norm_num))
  split_ifs <;> omega

theorem genDay_spec (dayOfWeek : Nat) (rng : Nat → ℚ)
    (hr : ∀ n, 0 ≤ rng n ∧ rng n < 1) :
    ∀ (slots : List String) (ix : Nat),
      ((genDay dayOfWeek rng slots ix).1.map Prod.fst).Sublist slots ∧
      (∀ t ∈ slots,
          ¬(hourOf t < 15 ∧ (dayOfWeek = 0 ∨ dayOfWeek = 6)) →
          t ∈ (genDay dayOfWeek rng slots ix).1.map Prod.fst) ∧
      (∀ p ∈ (genDay dayOfWeek rng slots ix).1,
          0 ≤ p.2 ∧
          ∃ qb qp, (0 ≤ qb ∧ qb < 1) ∧ (0 ≤ qp ∧ qp < 1) ∧
            p.2 = slotCount dayOfWeek (hourOf p.1) qb qp) := by
  intro slots
  induction slots with
  | nil =>
    intro ix
    refine ⟨?_, ?_, ?_⟩ <;> simp [genDay]
  | cons t rest ih =>
    intro ix
    have keepCase : ∀ (b k : Nat) (qp : ℚ), (0 ≤ qp ∧ qp < 1) →
        genDay dayOfWeek rng (t :: rest) ix =
          ((t, slotCount dayOfWeek (hourOf t) (rng b) qp) ::
              (genDay dayOfWeek rng rest k).1,
            (genDay dayOfWeek rng rest k).2) →
        ((genDay dayOfWeek rng (t :: rest) ix).1.map Prod.fst).Sublist (t :: rest) ∧
        (∀ t' ∈ t :: rest,
            ¬(hourOf t' < 15 ∧ (dayOfWeek = 0 ∨ dayOfWeek = 6)) →
            t' ∈ (genDay dayOfWeek rng (t :: rest) ix).1.map Prod.fst) ∧
        (∀ p ∈ (genDay dayOfWeek rng (t :: rest) ix).1,
            0 ≤ p.2 ∧
            ∃ qb qp, (0 ≤ qb ∧ qb < 1) ∧ (0 ≤ qp ∧ qp < 1) ∧
              p.2 = slotCount dayOfWeek (hourOf p.1) qb qp) := by
      intro b k qp hqp heq
      obtain ⟨ha, hb2, hc⟩ := ih k
      refine ⟨?_, ?_, ?_⟩
      · rw [heq]
        simp only [List.map_cons]
        exact List.Sublist.cons₂ t ha
      · intro t' ht' hcond
        rw [heq]
        simp only [List.map_cons]
        rcases List.mem_cons.mp ht' with rfl | hmem
        · exact List.mem_cons_self _ _
        · exact List.mem_cons_of_mem _ (hb2 t' hmem hcond)
      · intro p hp
        rw [heq] at hp
        rcases List.mem_cons.mp hp with rfl | hmem
        · exact ⟨slotCount_nonneg _ _ _ _ (hr b).1, rng b, qp, hr b, hqp, rfl⟩
        · exact hc p hmem
    by_cases hwl : hourOf t < 15 ∧ (dayOfWeek = 0 ∨ dayOfWeek = 6)
    · by_cases hskip : rng ix < mkRat 3 10
      · have heq : genDay dayOfWeek rng (t :: rest) ix =
            genDay dayOfWeek rng rest (ix + 1) := by
          simp [genDay, hwl, hskip]
        obtain ⟨ha, hb2, hc⟩ := ih (ix + 1)
        rw [heq]
        refine ⟨List.Sublist.cons t ha, ?_, hc⟩
        intro t' ht' hcond
        rcases List.mem_cons.mp ht' with rfl | hmem
        · exact absurd hwl hcond
        · exact hb2 t' hmem hcond
      · by_cases hpk : hourOf t = 19 ∨ hourOf t = 20
        · exact keepCase (ix + 1) (ix + 3) (rng (ix + 2)) (hr (ix + 2))
            (by simp [genDay, hwl, hskip, hpk])
        · exact keepCase (ix + 1) (ix + 2) 0 ⟨le_refl 0, by norm_num⟩
            (by simp [genDay, hwl, hskip, hpk])
    · by_cases hpk : hourOf t = 19 ∨ hourOf t = 20
      · exact keepCase ix (ix + 2) (rng (ix + 1)) (hr (ix + 1))
          (by simp [genDay, hwl, hpk])
      · exact keepCase ix (ix + 1) 0 ⟨le_refl 0, by norm_num⟩
          (by simp [genDay, hwl, hpk])

theorem genDays_spec (dateStr : Nat → String) (today : Nat) (rng : Nat → ℚ)
    (hr : ∀ n, 0 ≤ rng n ∧ rng n < 1) :
    ∀ (remaining dayOffset ix : Nat),
      (genDays dateStr today rng dayOffset remaining ix).1.length = remaining ∧
      ∀ (i : Nat)
        (hi : i < (genDays dateStr today rng dayOffset remaining ix).1.length),
        ((genDays dateStr today rng dayOffset remaining ix).1.get ⟨i, hi⟩).1 =
            dateStr (today + dayOffset + i) ∧
          slotListOk ((today + dayOffset + i) % 7)
            ((genDays dateStr today rng dayOffset remaining ix).1.get ⟨i, hi⟩).2 := by
  intro remaining
  induction remaining with
  | zero =>
    intro dayOffset ix
    refine ⟨rfl, ?_⟩
    intro i hi
    simp [genDays] at hi
  | succ rem ih =>
    intro dayOffset ix
    have heq : genDays dateStr today rng dayOffset (rem + 1) ix =
        ((dateStr (today + dayOffset),
            (genDay ((today + dayOffset) % 7) rng timeSlots ix).1) ::
          (genDays dateStr today rng (dayOffset + 1) rem
              (genDay ((today + dayOffset) % 7) rng timeSlots ix).2).1,
          (genDays dateStr today rng (dayOffset + 1) rem
              (genDay ((today + dayOffset) % 7) rng timeSlots ix).2).2) := by
      simp [genDays]
    rw [heq]
    obtain ⟨hlen, hfacts⟩ := ih (dayOffset + 1)
      ((genDay ((today + dayOffset) % 7) rng timeSlots ix).2)
    constructor
    · simp [hlen]
    · intro i hi
      cases i with
      | zero =>
        have hgd := genDay_spec ((today + dayOffset) % 7) rng hr timeSlots ix
        simp only [Nat.add_zero]
        exact ⟨rfl, hgd.1, hgd.2.1, hgd.2.2⟩
      | succ j =>
        have hj : j < (genDays dateStr today rng (dayOffset + 1) rem
            (genDay ((today + dayOffset) % 7) rng timeSlots ix).2).1.length := by
          simpa using Nat.lt_of_succ_lt_succ (by simpa using hi)
        obtain ⟨hd, hok⟩ := hfacts j hj
        have hidx : today + (dayOffset + 1) + j = today + dayOffset + (j + 1) := by
          omega
        rw [List.get_cons_succ]
        rw [hidx] at hd hok
        exact ⟨hd, hok⟩

theorem genRestaurants_spec (dateStr : Nat → String) (today : Nat)
    (rng : Nat → ℚ) (daysAhead : Nat) :
    ∀ (ids : List String) (ix : Nat),
      (genRestaurants dateStr today rng daysAhead ids ix).1.map Prod.fst = ids ∧
      ∀ re ∈ (genRestaurants dateStr today rng daysAhead ids ix).1,
        ∃ ix0, re.2 = (genDays dateStr today rng 0 daysAhead ix0).1 := by
  intro ids
  induction ids with
  | nil =>
    intro ix
    exact ⟨rfl, by simp [genRestaurants]⟩
  | cons r rest ih =>
    intro ix
    have heq : genRestaurants dateStr today rng daysAhead (r :: rest) ix =
        ((r, (genDays dateStr today rng 0 daysAhead ix).1) ::
          (genRestaurants dateStr today rng daysAhead rest
              (genDays dateStr today rng 0 daysAhead ix).2).1,
          (genRestaurants dateStr today rng daysAhead rest
              (genDays dateStr today rng 0 daysAhead ix).2).2) := by
      simp [genRestaurants]
    rw [heq]
    obtain ⟨hmap, hmem⟩ := ih ((genDays dateStr today rng 0 daysAhead ix).2)
    constructor
    · simp [hmap]
    · intro re hre
      rcases List.mem_cons.mp hre with rfl | hmem2
      · exact ⟨ix, rfl⟩
      · exact hmem re hmem2

/-- C3: for every uniform random source (all draws in [0, 1)) and duplicate
free id list, the generated mapping has exactly one top-level entry per id in
order; each entry has one date entry per horizon day, keyed by the formatted
day today + i; each date carries time keys forming an ordered sublist of the
canonical 17-slot list, where only weekend lunch slots may be omitted; and
every count is the non-negative result of the staged slotCount algorithm on
draws from [0, 1). -/
theorem generateAvailability_spec (dateStr : Nat → String) (today : Nat)
    (rng : Nat → ℚ) (restaurantIds : List String) (daysAhead : Nat)
    (_hnd : restaurantIds.Nodup) (hr : ∀ n, 0 ≤ rng n ∧ rng n < 1) :
    (generateAvailability dateStr today rng restaurantIds daysAhead).map
        Prod.fst = restaurantIds ∧
    ∀ re ∈ generateAvailability dateStr today rng restaurantIds daysAhead,
      re.2.length = daysAhead ∧
      ∀ (i : Nat) (hi : i < re.2.length),
        (re.2.get ⟨i, hi⟩).1 = dateStr (today + i) ∧
        slotListOk ((today + i) % 7) (re.2.get ⟨i, hi⟩).2 := by
  constructor
  · exact (genRestaurants_spec dateStr today rng daysAhead restaurantIds 0).1
  · intro re hre
    obtain ⟨ix0, hre2⟩ :=
      (genRestaurants_spec dateStr today rng daysAhead restaurantIds 0).2 re hre
    rw [hre2]
    obtain ⟨hlen, hfacts⟩ := genDays_spec dateStr today rng hr daysAhead 0 ix0
    refine ⟨hlen, fun i hi => ?_⟩
    obtain ⟨hd, hok⟩ := hfacts i hi
    have hidx : today + 0 + i = today + i := by omega
    rw [hidx] at hd hok
    exact ⟨hd, hok⟩

theorem generateAvailability_spec_witness :
    (["r1"] : List String).Nodup ∧ (∀ n, 0 ≤ rng0 n ∧ rng0 n < 1) ∧
      (generateAvailability dateStr0 3 rng0 ["r1"] 1).map Prod.fst = ["r1"] :=
  ⟨by decide, fun n => ⟨le_refl 0, (by decide : (0 : ℚ) < 1)⟩,
    (generateAvailability_spec dateStr0 3 rng0 ["r1"] 1 (by decide)
        (fun n => ⟨le_refl 0, (by decide : (0 : ℚ) < 1)⟩)).1⟩
